import Mathlib

/-!
Verification development for `wilsonplot3.py` (MooersLab/wilson-plots).

The script extracts Wilson-plot data from a TRUNCATE log
(`parse_truncate_log`), fits a line by least squares and derives the
Wilson B-factor, and converts between 1/d² and resolution for the
secondary axis (`inv_d_sq_to_resolution`, `resolution_to_inv_d_sq`).

The embedding below models:
 - a report as a `List String` of its lines (newline terminators carry no
   information for any operation the script applies to a line, since
   `strip`, `lstrip`, `split` treat them as whitespace and no marker or
   `"$"` test involves a newline);
 - Python floats as exact values: `PyVal` is a finite rational, an
   infinity, or NaN.  `float(...)` literal acceptance is modelled by
   `pyFloat?` over the CPython grammar (sign, digit runs with single
   underscores between digits, optional fraction and exponent, and the
   case-insensitive special words inf/infinity/nan), with whitespace
   stripped.  Out-of-range literals (CPython `OverflowError`) and
   rounding to binary floating point are outside the model: values are
   kept exact;
 - both parsing passes of `parse_truncate_log` as explicit state-passing
   loops, one line per step, mirroring the Python statement by statement,
   including the `continue` that skips the end-of-section check after a
   failed parse, and the early `break`s;
 - the least-squares fit as the closed-form ordinary-least-squares
   solution over ℚ, and the two axis transforms over ℝ with `Real.sqrt`.
-/

/-- Whitespace characters recognised by CPython `str.strip` / `str.split`
for the ASCII range (space, tab, newline, carriage return, vertical tab,
form feed).  Unicode whitespace beyond ASCII is outside the model. -/
def isPySpace (c : Char) : Bool :=
  c = ' ' || c = '\t' || c = '\n' || c = '\r' || c = '\x0b' || c = '\x0c'

/-- ASCII decimal digit test, modelling the single-character
`str.isdigit` used on `line.lstrip()[0]`. -/
def isDigitCh (c : Char) : Bool :=
  '0' ≤ c && c ≤ '9'

/-- Numeric value of an ASCII digit character. -/
def digitVal (c : Char) : Nat :=
  c.toNat - '0'.toNat

/-- Strip leading and trailing Python whitespace, modelling
`str.strip()`. -/
def stripSpaces (cs : List Char) : List Char :=
  ((cs.dropWhile isPySpace).reverse.dropWhile isPySpace).reverse

/-- Accumulator for `pySplit`: split a character list on runs of
whitespace, discarding empty pieces — the behaviour of Python
`str.split()` with no separator argument. -/
def pyWordsAux : List Char → List Char → List (List Char)
  | [], acc => if acc.isEmpty then [] else [acc.reverse]
  | c :: rest, acc =>
    if isPySpace c then
      if acc.isEmpty then pyWordsAux rest [] else acc.reverse :: pyWordsAux rest []
    else pyWordsAux rest (c :: acc)

/-- Python `line.split()`: whitespace-delimited tokens. -/
def pySplit (s : String) : List String :=
  (pyWordsAux s.toList []).map fun w => ⟨w⟩

/-- Python `tok.isdigit()` on a whole token: nonempty and every character
a decimal digit. -/
def pyTokIsdigit (s : String) : Bool :=
  !s.toList.isEmpty && s.toList.all isDigitCh

/-- Does `needle` occur at the head of `hay`? -/
def matchHere : List Char → List Char → Bool
  | [], _ => true
  | _ :: _, [] => false
  | a :: as, b :: bs => a == b && matchHere as bs

/-- Does `needle` occur anywhere in `hay`?  Models Python
`needle in hay` on strings. -/
def seqContains : List Char → List Char → Bool
  | [], needle => matchHere needle []
  | h :: t, needle => matchHere needle (h :: t) || seqContains t needle

/-- Python substring containment `pat in s`. -/
def strContains (s pat : String) : Bool :=
  seqContains s.toList pat.toList

/-- The exact value of a Python float in the model: a finite value kept
as an exact decimal `num / 10 ^ pow` (the form a literal denotes), an
infinity, or NaN.  Binary rounding is not modelled; parsed literal values
are kept exact. -/
inductive PyVal where
  | finite (num : ℤ) (pow : ℕ)
  | inf
  | neginf
  | nan
deriving DecidableEq

/-- The rational value of a finite `PyVal` (`none` for infinities and
NaN). -/
def PyVal.toRat : PyVal → Option ℚ
  | PyVal.finite num pow => some ((num : ℚ) / 10 ^ pow)
  | _ => none

/-- Python `v > 0` on a float value: positive finite values and +inf
compare greater than zero; -inf and NaN do not. -/
def PyVal.gtZero : PyVal → Bool
  | PyVal.finite num _ => decide (0 < num)
  | PyVal.inf => true
  | PyVal.neginf => false
  | PyVal.nan => false

/-- A finite (neither infinite nor NaN) float value. -/
def PyVal.isFinite : PyVal → Bool
  | PyVal.finite _ _ => true
  | _ => false

/-- Full-match parse of a digit run in which single underscores may
separate digits (CPython numeric literal strings): returns the value and
the number of digits, or `none` if the run is empty or malformed. -/
def digitsRun : List Char → Nat → Nat → Option (Nat × Nat)
  | [], v, n => if n = 0 then none else some (v, n)
  | '_' :: [], _, _ => none
  | '_' :: d :: rest, v, n =>
    if n ≠ 0 ∧ isDigitCh d then digitsRun rest (10 * v + digitVal d) (n + 1) else none
  | c :: rest, v, n =>
    if isDigitCh c then digitsRun rest (10 * v + digitVal c) (n + 1) else none

/-- Split a character list at the first character satisfying `p`,
returning the part before it and, when found, the part after it. -/
def splitFirst (p : Char → Bool) : List Char → List Char × Option (List Char)
  | [] => ([], none)
  | c :: rest =>
    if p c then ([], some rest)
    else
      let r := splitFirst p rest
      (c :: r.1, r.2)

/-- Model of CPython `float(s)` on a string: strip whitespace, optional
sign, then either the case-insensitive special words `inf` / `infinity` /
`nan`, or a decimal literal `int [. frac] [e|E [sign] digits]` with at
least one mantissa digit, single underscores permitted between digits.
Returns `none` where CPython raises `ValueError`. -/
def pyFloat? (s : String) : Option PyVal :=
  let cs0 := stripSpaces s.toList
  let signed : Bool × List Char :=
    match cs0 with
    | '+' :: r => (false, r)
    | '-' :: r => (true, r)
    | r => (false, r)
  let neg := signed.1
  let cs := signed.2
  let low := cs.map Char.toLower
  if low = "inf".toList || low = "infinity".toList then
    some (if neg then PyVal.neginf else PyVal.inf)
  else if low = "nan".toList then
    some PyVal.nan
  else
    let mantExp := splitFirst (fun c => c = 'e' || c = 'E') cs
    let intFrac := splitFirst (fun c => c = '.') mantExp.1
    let intRes : Option (Nat × Nat) :=
      if intFrac.1.isEmpty then some (0, 0) else digitsRun intFrac.1 0 0
    let fracRes : Option (Nat × Nat) :=
      match intFrac.2 with
      | none => some (0, 0)
      | some fcs => if fcs.isEmpty then some (0, 0) else digitsRun fcs 0 0
    match intRes, fracRes with
    | some iv, some fv =>
      if iv.2 + fv.2 = 0 then none
      else
        let expRes : Option ℤ :=
          match mantExp.2 with
          | none => some 0
          | some ecs =>
            let esigned : Bool × List Char :=
              match ecs with
              | '+' :: r => (false, r)
              | '-' :: r => (true, r)
              | r => (false, r)
            match digitsRun esigned.2 0 0 with
            | some ev => some (if esigned.1 then -(ev.1 : ℤ) else (ev.1 : ℤ))
            | none => none
        match expRes with
        | some e =>
          let mant : ℕ := iv.1 * 10 ^ fv.2 + fv.1
          let sm : ℤ := if neg then -(mant : ℤ) else (mant : ℤ)
          if 0 ≤ e then some (PyVal.finite (sm * 10 ^ e.toNat) fv.2)
          else some (PyVal.finite sm (fv.2 + (-e).toNat))
        | none => none
    | _, _ => none

example : pyFloat? "5" = some (PyVal.finite 5 0) := by decide
example : pyFloat? "inf" = some PyVal.inf := by decide
example : pyFloat? "-Infinity" = some PyVal.neginf := by decide
example : pyFloat? "nan" = some PyVal.nan := by decide
example : pyFloat? "1.5e2" = some (PyVal.finite 1500 1) := by decide
example : pyFloat? " -0.25 " = some (PyVal.finite (-25) 2) := by decide
example : pyFloat? "1_0.2_5" = some (PyVal.finite 1025 2) := by decide
example : pyFloat? "" = none := by decide
example : pyFloat? "." = none := by decide
example : pyFloat? "1._5" = none := by decide
example : pyFloat? "1__0" = none := by decide
example : pyFloat? "1e" = none := by decide
example : pyFloat? "abc" = none := by decide
example : pyFloat? "1.e1" = some (PyVal.finite 10 0) := by decide
example : pyFloat? "1e-2" = some (PyVal.finite 1 2) := by decide
example : pyFloat? "-7.5" = some (PyVal.finite (-75) 1) := by decide
example : PyVal.toRat (PyVal.finite (-75) 1) = some (-(15/2 : ℚ)) := by
  norm_num [PyVal.toRat]
example : pySplit "  1 2\t3 " = ["1", "2", "3"] := by decide
example : strContains "ab Range N_obs cd" "Range N_obs" = true := by decide
example : strContains "abc" "ac" = false := by decide

/-- The fixed marker substrings of Pass 1, copied verbatim from
`data_markers` in `parse_truncate_log`. -/
def dataMarkers : List String :=
  ["i  nref  N_unq",
   "Range N_obs",
   "$   i   nref",
   "Wilson Plot - Suggested Bfactor"]

/-- Does a line contain any of the marker substrings?  Models the inner
`for marker in data_markers: if marker in line: ...` loop, which sets
`data_header_line` to the current index when any marker occurs. -/
def markerHit (line : String) : Bool :=
  dataMarkers.any fun m => strContains line m

/-- The candidate-data-line test of Pass 1:
`line.strip() and line.lstrip()[0].isdigit()` (nonempty after stripping,
and the first non-whitespace character is a digit). -/
def lstripHeadIsDigit (line : String) : Bool :=
  match line.toList.dropWhile isPySpace with
  | d :: _ => isDigitCh d
  | [] => false

/-- Outcome of the token-extraction body of Pass 1 on one line:
the line had fewer than 8 tokens (control falls through to the
end-of-section check), a float parse failed (`except` clause runs
`continue`, skipping the end-of-section check), or a data point was
read. -/
inductive RowRead where
  | tooShort
  | failed
  | ok (x y : PyVal)
deriving DecidableEq

/-- The token-extraction body of Pass 1 (lines 99–115 of the script):
split the line, require at least 8 tokens, pick `res_idx` / `ln_idx` by
the literal conditionals of the source, and parse both tokens (an
out-of-range index would raise `IndexError`, caught like a parse
failure; `getD` with a non-parsing default models that). -/
def p1ReadRow (line : String) : RowRead :=
  let parts := pySplit line
  if 8 ≤ parts.length then
    let res_idx := if 4 < parts.length then 4 else 1
    let ln_idx := if 7 < parts.length then 7 else 3
    match pyFloat? (parts.getD res_idx ""), pyFloat? (parts.getD ln_idx "") with
    | some a, some b => RowRead.ok a b
    | _, _ => RowRead.failed
  else RowRead.tooShort

/-- Variant of `p1ReadRow` with the token indices fixed at 4 and 7,
stated by the spec to be the only indices ever used; `p1ReadRow` is
proved equal to it (the degraded fallback to indices 1 and 3 is
unreachable under the 8-token guard). -/
def p1ReadRowFixed (line : String) : RowRead :=
  let parts := pySplit line
  if 8 ≤ parts.length then
    match pyFloat? (parts.getD 4 ""), pyFloat? (parts.getD 7 "") with
    | some a, some b => RowRead.ok a b
    | _, _ => RowRead.failed
  else RowRead.tooShort

/-- State of the Pass 1 scan.  `header`, `inSec`, `xs`, `ys` mirror
`data_header_line`, `in_data_section`, `resolution_inv_sq`,
`ln_intensity`.  `considered` and `brk` are ghost fields recording which
line indices passed the outer guard `data_header_line > 0 and
i > data_header_line` (the data-row candidates) and whether the loop
exited through `break`; they influence nothing. -/
structure P1St where
  header : Int
  inSec : Bool
  xs : List PyVal
  ys : List PyVal
  considered : List Nat
  brk : Bool
deriving DecidableEq

/-- Initial Pass 1 state: `data_header_line = -1`, not in the data
section, empty accumulators. -/
def p1Init : P1St :=
  ⟨-1, false, [], [], [], false⟩

/-- The end-of-data-section check of Pass 1 (script lines 118–120): a
`$` or blank line inside the section sets `break` — but only once at
least one point has been accumulated. -/
def p1EndCheck (line : String) (st : P1St) : P1St :=
  if st.inSec ∧ (strContains line "$" ∨ stripSpaces line.toList = []) ∧
      0 < st.xs.length then
    { st with brk := true }
  else st

/-- The body of the Pass 1 loop for a line that passed the outer guard:
the first `$` line toggles `inSec` and `continue`s; a candidate data
line is tokenised by `p1ReadRow` (a parse failure `continue`s past the
end-of-section check `p1EndCheck`); otherwise `p1EndCheck` runs, on the
extended accumulators when a point was read. -/
def p1Candidate (line : String) (st : P1St) : P1St :=
  if strContains line "$" ∧ st.inSec = false then
    { st with inSec := true }
  else
    match (if st.inSec ∧ stripSpaces line.toList ≠ [] ∧ lstripHeadIsDigit line then
            p1ReadRow line else RowRead.tooShort) with
    | RowRead.failed => st
    | RowRead.tooShort => p1EndCheck line st
    | RowRead.ok a b => p1EndCheck line { st with xs := st.xs ++ [a], ys := st.ys ++ [b] }

/-- One iteration of the Pass 1 loop body on line `i`: the marker scan
updates `header`, then the body `p1Candidate` runs under the guard
`data_header_line > 0 and i > data_header_line` (recording `i` in the
ghost `considered` list when it does). -/
def p1Step (i : Nat) (line : String) (st : P1St) : P1St :=
  let st := { st with header := if markerHit line then (i : Int) else st.header }
  if st.header > (0 : Int) ∧ (i : Int) > st.header then
    p1Candidate line { st with considered := st.considered ++ [i] }
  else st

/-- The Pass 1 loop over the remaining lines, starting at index `i`;
stops as soon as a step `break`s. -/
def p1Loop : Nat → List String → P1St → P1St
  | _, [], st => st
  | i, line :: rest, st =>
    let st2 := p1Step i line st
    if st2.brk then st2 else p1Loop (i + 1) rest st2

/-- Pass 1 of `parse_truncate_log`: the marker-guided scan. -/
def pass1 (lines : List String) : List PyVal × List PyVal :=
  let o := p1Loop 0 lines p1Init
  (o.xs, o.ys)

/-- Ghost observation: the indices of the lines Pass 1 treated as
data-row candidates (those for which the guard
`data_header_line > 0 and i > data_header_line` held). -/
def p1Considered (lines : List String) : List Nat :=
  (p1Loop 0 lines p1Init).considered

/-- Ghost observation: whether Pass 1 exited through `break`. -/
def p1Broke (lines : List String) : Bool :=
  (p1Loop 0 lines p1Init).brk

/-- Observation: the final value of `data_header_line` after Pass 1. -/
def p1FinalHeader (lines : List String) : Int :=
  (p1Loop 0 lines p1Init).header

/-- State of the Pass 2 scan: `in_data_section` and the two
accumulators. -/
structure P2St where
  inSec : Bool
  xs : List PyVal
  ys : List PyVal
deriving DecidableEq

/-- One pass of the Pass 2 loop (lines 127–145 of the script): a line
with at least 8 tokens whose first token is all digits is parsed at
token indices 4 and 7; the point is kept only when `res_sq > 0`, which
also sets `in_data_section`.  Otherwise (`elif`), a line with fewer than
8 tokens ends the scan once the section flag is set. -/
def p2Loop : List String → P2St → P2St
  | [], st => st
  | line :: rest, st =>
    let parts := pySplit line
    if 8 ≤ parts.length ∧ pyTokIsdigit (parts.getD 0 "") then
      match pyFloat? (parts.getD 4 ""), pyFloat? (parts.getD 7 "") with
      | some a, some b =>
        if a.gtZero then p2Loop rest ⟨true, st.xs ++ [a], st.ys ++ [b]⟩
        else p2Loop rest st
      | _, _ => p2Loop rest st
    else if st.inSec ∧ parts.length < 8 then st
    else p2Loop rest st

/-- Pass 2 of `parse_truncate_log`: the fallback direct scan. -/
def pass2 (lines : List String) : List PyVal × List PyVal :=
  let o := p2Loop lines ⟨false, [], []⟩
  (o.xs, o.ys)

/-- The Pass 2 acceptance criteria on a single line: at least 8
whitespace-separated tokens, all-digit first token, token 4 parsing to a
float greater than 0 and token 7 parsing to a float. -/
def p2Qual (line : String) : Bool :=
  let parts := pySplit line
  if 8 ≤ parts.length ∧ pyTokIsdigit (parts.getD 0 "") then
    match pyFloat? (parts.getD 4 ""), pyFloat? (parts.getD 7 "") with
    | some a, some _ => a.gtZero
    | _, _ => false
  else false

/-- `parse_truncate_log`, given the decoded lines of the report: Pass 1,
then Pass 2 only when Pass 1 accumulated nothing, then the final
emptiness check.  `none` models the failure return `(None, None)`.  The
surrounding `try` (unreadable path) also returns `(None, None)` and is
outside the pure model. -/
def parse_truncate_log (lines : List String) : Option (List PyVal × List PyVal) :=
  let p1 := pass1 lines
  let d := if p1.1.isEmpty then pass2 lines else p1
  if d.1.isEmpty then none else some d

example : pass1 ["x", "Range N_obs", "$", "1 2 3 4 5 6 7 8"] =
    ([PyVal.finite 5 0], [PyVal.finite 8 0]) := by decide
example : p1Considered ["x", "Range N_obs", "$", "1 2 3 4 5 6 7 8"] = [2, 3] := by decide
example : pass1 ["Range N_obs", "$", "1 2 3 4 5 6 7 8"] = ([], []) := by decide
example : pass2 ["1 2 3 4 5 6 7 8", "9", "1 2 3 4 5 6 7 8"] =
    ([PyVal.finite 5 0], [PyVal.finite 8 0]) := by decide
example : parse_truncate_log ["no data here"] = none := by decide
example : parse_truncate_log ["1 2 3 4 5 6 7 8"] =
    some ([PyVal.finite 5 0], [PyVal.finite 8 0]) := by decide

/-- The index of the first line containing any marker substring (the
notion named by the spec's "Record the index of the first line
containing any marker"). -/
def firstMarkerIdx : List String → Option Nat
  | [] => none
  | l :: ls => if markerHit l then some 0 else (firstMarkerIdx ls).map (· + 1)

/-- The slope `m` of the ordinary-least-squares line fitted by
`np.linalg.lstsq` over the design matrix `[x, 1]` (script lines
170–171), in exact arithmetic: the closed-form normal-equations
solution.  For a full-rank system (not all x equal) this is the unique
least-squares solution; when all x coincide the division yields 0 and
`wilsonIntercept` the mean of y, which gives the same fitted values as
the minimum-norm solution `lstsq` returns, since fitted values are the
orthogonal projection of y and do not depend on which least-squares
solution is picked. -/
def wilsonSlope (xs ys : List ℚ) : ℚ :=
  let n : ℚ := xs.length
  let sx := xs.sum
  let sy := ys.sum
  let sxx := (xs.map fun v => v * v).sum
  let sxy := ((xs.zip ys).map fun p => p.1 * p.2).sum
  (n * sxy - sx * sy) / (n * sxx - sx * sx)

/-- The intercept `b` of the ordinary-least-squares line (see
`wilsonSlope`). -/
def wilsonIntercept (xs ys : List ℚ) : ℚ :=
  (ys.sum - wilsonSlope xs ys * xs.sum) / (xs.length : ℚ)

/-- The derived Wilson B-factor, `wilson_b = -2 * m` (script line
174). -/
def wilson_b (xs ys : List ℚ) : ℚ :=
  -2 * wilsonSlope xs ys

/-- The fit line evaluated at the data abscissae, `fit_y = m * x + b`
(script line 178). -/
def fitY (xs ys : List ℚ) : List ℚ :=
  xs.map fun x => wilsonSlope xs ys * x + wilsonIntercept xs ys

noncomputable section

/-- The secondary-axis transform `inv_d_sq_to_resolution` (script lines
205–209): `np.sqrt(1.0 / np.maximum(x, 1e-10))`, in real arithmetic. -/
def inv_d_sq_to_resolution (x : ℝ) : ℝ :=
  Real.sqrt (1 / max x 1e-10)

/-- The inverse transform `resolution_to_inv_d_sq` (script lines
211–216): `1.0 / np.power(np.maximum(x, 1e-10), 2)`, in real
arithmetic. -/
def resolution_to_inv_d_sq (x : ℝ) : ℝ :=
  1 / (max x 1e-10) ^ 2

end

/-- The guard and outcome of `create_wilson_plot` (script lines
158–263): reject when the data set is empty or has fewer than 2 points;
otherwise the outcome is that of the rendering `try` block, abstracted
as the boolean `renderOk` (matplotlib effects are outside the model:
`True` on success, `False` when an exception was caught). -/
def create_wilson_plot_ok (xs : List PyVal) (renderOk : Bool) : Bool :=
  if xs.isEmpty ∨ xs.length < 2 then false else renderOk

/-- The `__main__` block (script lines 265–282): exit 1 when fewer than
3 argv entries; otherwise run extraction on the report's lines, and on
the truthiness check `resolution_inv_sq and ln_intensity` either render
(exit 0 on success, 1 on failure) or exit 1.  The report is given as its
decoded lines; `renderOk` abstracts the rendering outcome as in
`create_wilson_plot_ok`. -/
def mainExit (argc : Nat) (lines : List String) (renderOk : Bool) : Nat :=
  if argc < 3 then 1
  else
    match parse_truncate_log lines with
    | some d =>
      if d.1 ≠ [] ∧ d.2 ≠ [] then
        if create_wilson_plot_ok d.1 renderOk then 0 else 1
      else 1
    | none => 1

example : mainExit 2 ["1 2 3 4 5 6 7 8"] true = 1 := by decide
example : mainExit 3 ["1 2 3 4 5 6 7 8"] true = 1 := by decide
example : mainExit 3 ["1 2 3 4 5 6 7 8", "2 2 3 4 6 6 7 9"] true = 0 := by decide
example : mainExit 3 ["no data"] true = 1 := by decide

/-! ### Structural lemmas about the Pass 1 / Pass 2 loops -/

/-- `p1EndCheck` only ever touches the `brk` flag. -/
lemma p1EndCheck_fields (line : String) (st : P1St) :
    (p1EndCheck line st).xs = st.xs ∧ (p1EndCheck line st).ys = st.ys ∧
    (p1EndCheck line st).header = st.header ∧
    (p1EndCheck line st).considered = st.considered ∧
    (p1EndCheck line st).inSec = st.inSec := by
  unfold p1EndCheck
  split <;> exact ⟨rfl, rfl, rfl, rfl, rfl⟩

/-- `p1Candidate` either leaves the accumulators unchanged or appends
exactly one `(x, y)` pair read by `p1ReadRow` from the line; the
`header` and `considered` fields never change. -/
lemma p1Candidate_shape (line : String) (st : P1St) :
    (((p1Candidate line st).xs = st.xs ∧ (p1Candidate line st).ys = st.ys) ∨
     (∃ a b, p1ReadRow line = RowRead.ok a b ∧
       (p1Candidate line st).xs = st.xs ++ [a] ∧
       (p1Candidate line st).ys = st.ys ++ [b])) ∧
    (p1Candidate line st).header = st.header ∧
    (p1Candidate line st).considered = st.considered := by
  unfold p1Candidate
  split
  · exact ⟨Or.inl ⟨rfl, rfl⟩, rfl, rfl⟩
  · split
    · exact ⟨Or.inl ⟨rfl, rfl⟩, rfl, rfl⟩
    · rcases p1EndCheck_fields line st with ⟨hx, hy, hh, hc, _⟩
      exact ⟨Or.inl ⟨hx, hy⟩, hh, hc⟩
    · rename_i a b heq
      have hok : p1ReadRow line = RowRead.ok a b := by
        by_cases hc : st.inSec = true ∧ stripSpaces line.toList ≠ [] ∧
            lstripHeadIsDigit line = true
        · rw [if_pos hc] at heq; exact heq
        · rw [if_neg hc] at heq; cases heq
      rcases p1EndCheck_fields line { st with xs := st.xs ++ [a], ys := st.ys ++ [b] } with
        ⟨hx, hy, hh, hc, _⟩
      exact ⟨Or.inr ⟨a, b, hok, hx, hy⟩, hh, hc⟩

/-- A Pass 1 step either leaves the accumulators unchanged or appends
exactly one `(x, y)` pair read by `p1ReadRow` from the current line. -/
lemma p1Step_shape (i : Nat) (line : String) (st : P1St) :
    ((p1Step i line st).xs = st.xs ∧ (p1Step i line st).ys = st.ys) ∨
    (∃ a b, p1ReadRow line = RowRead.ok a b ∧
      (p1Step i line st).xs = st.xs ++ [a] ∧ (p1Step i line st).ys = st.ys ++ [b]) := by
  unfold p1Step
  dsimp only
  split <;> split
  all_goals first
    | exact (p1Candidate_shape line _).1
    | exact Or.inl ⟨rfl, rfl⟩

/-- A Pass 1 step keeps the two accumulators the same length. -/
lemma p1Step_len (i : Nat) (line : String) (st : P1St)
    (h : st.xs.length = st.ys.length) :
    (p1Step i line st).xs.length = (p1Step i line st).ys.length := by
  rcases p1Step_shape i line st with ⟨hx, hy⟩ | ⟨a, b, _, hx, hy⟩ <;>
    simp [hx, hy, h]

/-- The Pass 1 loop keeps the two accumulators the same length. -/
lemma p1Loop_len (lines : List String) :
    ∀ (i : Nat) (st : P1St), st.xs.length = st.ys.length →
      (p1Loop i lines st).xs.length = (p1Loop i lines st).ys.length := by
  induction lines with
  | nil => intro i st h; exact h
  | cons line rest ih =>
    intro i st h
    unfold p1Loop
    dsimp only
    split
    · exact p1Step_len i line st h
    · exact ih (i + 1) (p1Step i line st) (p1Step_len i line st h)

/-- The two sequences returned by Pass 1 have the same length. -/
lemma pass1_len (lines : List String) :
    (pass1 lines).1.length = (pass1 lines).2.length :=
  p1Loop_len lines 0 p1Init rfl

/-- The Pass 2 loop keeps the two accumulators the same length. -/
lemma p2Loop_len (lines : List String) :
    ∀ st : P2St, st.xs.length = st.ys.length →
      (p2Loop lines st).xs.length = (p2Loop lines st).ys.length := by
  induction lines with
  | nil => intro st h; exact h
  | cons line rest ih =>
    intro st h
    unfold p2Loop
    dsimp only
    split
    · split
      · split
        · exact ih _ (by simp [h])
        · exact ih _ h
      · exact ih _ h
    · split
      · exact h
      · exact ih _ h

/-- The two sequences returned by Pass 2 have the same length. -/
lemma pass2_len (lines : List String) :
    (pass2 lines).1.length = (pass2 lines).2.length :=
  p2Loop_len lines ⟨false, [], []⟩ rfl

/-- A successful extraction returns sequences of equal length, the first
of them nonempty. -/
lemma parse_some_shape {lines : List String} {xs ys : List PyVal}
    (h : parse_truncate_log lines = some (xs, ys)) :
    xs.length = ys.length ∧ xs ≠ [] := by
  unfold parse_truncate_log at h
  dsimp only at h
  by_cases h1 : (pass1 lines).1.isEmpty
  · rw [if_pos h1] at h
    by_cases h2 : (pass2 lines).1.isEmpty
    · rw [if_pos h2] at h; cases h
    · rw [if_neg h2] at h
      injection h with h'
      have hx : xs = (pass2 lines).1 := by rw [h']
      have hy : ys = (pass2 lines).2 := by rw [h']
      subst hx; subst hy
      exact ⟨pass2_len lines, by simpa [List.isEmpty_iff] using h2⟩
  · rw [if_neg h1] at h
    rw [if_neg (by simpa using h1)] at h
    injection h with h'
    have hx : xs = (pass1 lines).1 := by rw [h']
    have hy : ys = (pass1 lines).2 := by rw [h']
    subst hx; subst hy
    exact ⟨pass1_len lines, by simpa [List.isEmpty_iff] using h1⟩

/-! ### C6 -/

/-- C6: a candidate row processed by Pass 1 is accepted only with at
least 8 whitespace-separated tokens, and under that guard the x value is
read from token index 4 and the y value from token index 7 — the
degraded fallback to indices 1 and 3 is unreachable, so the row reader
equals its fixed-index variant on every line. -/
theorem c6_row_reader_uses_4_and_7 (line : String) :
    p1ReadRow line = p1ReadRowFixed line ∧
    (∀ x y, p1ReadRow line = RowRead.ok x y → 8 ≤ (pySplit line).length) := by
  constructor
  · unfold p1ReadRow p1ReadRowFixed
    by_cases h : 8 ≤ (pySplit line).length
    · have h4 : 4 < (pySplit line).length := by omega
      have h7 : 7 < (pySplit line).length := by omega
      simp [h, h4, h7]
    · simp [h]
  · intro x y hxy
    by_cases h : 8 ≤ (pySplit line).length
    · exact h
    · unfold p1ReadRow at hxy
      rw [if_neg h] at hxy
      cases hxy

/-- Witness for C6 on a concrete 8-token row. -/
theorem c6_witness :
    p1ReadRow "1 2 3 4 5 6 7 8" = p1ReadRowFixed "1 2 3 4 5 6 7 8" ∧
    8 ≤ (pySplit "1 2 3 4 5 6 7 8").length :=
  ⟨(c6_row_reader_uses_4_and_7 "1 2 3 4 5 6 7 8").1,
   (c6_row_reader_uses_4_and_7 "1 2 3 4 5 6 7 8").2 (PyVal.finite 5 0) (PyVal.finite 8 0)
     (by decide)⟩

/-! ### C10 -/

/-- C10: both axis transforms are total and strictly positive on every
real input — the `1e-10` floor applied before dividing keeps the
denominators positive, for zero and negative inputs included. -/
theorem c10_transforms_total_positive (x : ℝ) :
    0 < inv_d_sq_to_resolution x ∧ 0 < resolution_to_inv_d_sq x := by
  have hm : (0 : ℝ) < max x 1e-10 :=
    lt_of_lt_of_le (by norm_num) (le_max_right x 1e-10)
  constructor
  · unfold inv_d_sq_to_resolution
    exact Real.sqrt_pos.mpr (one_div_pos.mpr hm)
  · unfold resolution_to_inv_d_sq
    exact one_div_pos.mpr (pow_pos hm 2)

/-! ### C3 -/

/-- C3: Pass 2's result is used exactly when Pass 1 accumulated zero
points, and the extractor fails exactly when both passes accumulate zero
points; otherwise it returns the points of the pass that produced them,
in encounter order. -/
theorem c3_fallback_and_failure (lines : List String) :
    (parse_truncate_log lines = none ↔ (pass1 lines).1 = [] ∧ (pass2 lines).1 = []) ∧
    ((pass1 lines).1 ≠ [] → parse_truncate_log lines = some (pass1 lines)) ∧
    ((pass1 lines).1 = [] → (pass2 lines).1 ≠ [] →
      parse_truncate_log lines = some (pass2 lines)) := by
  unfold parse_truncate_log
  by_cases h1 : (pass1 lines).1 = []
  · by_cases h2 : (pass2 lines).1 = [] <;>
      simp [h1, h2, List.isEmpty_iff]
  · simp [h1, List.isEmpty_iff]

/-- Witness for C3 on a report whose Pass 1 succeeds. -/
theorem c3_witness :
    (pass1 ["x", "Range N_obs", "$", "1 2 3 4 5 6 7 8"]).1 ≠ [] ∧
    parse_truncate_log ["x", "Range N_obs", "$", "1 2 3 4 5 6 7 8"] =
      some (pass1 ["x", "Range N_obs", "$", "1 2 3 4 5 6 7 8"]) :=
  ⟨by decide,
   (c3_fallback_and_failure ["x", "Range N_obs", "$", "1 2 3 4 5 6 7 8"]).2.1 (by decide)⟩

/-! ### C9 -/

/-- C9: `parse_truncate_log` returns either the failure value or two
sequences of equal length, each with at least one element — the x and y
accumulators are only ever extended in pairs. -/
theorem c9_parallel_sequences (lines : List String) :
    parse_truncate_log lines = none ∨
    ∃ xs ys, parse_truncate_log lines = some (xs, ys) ∧
      xs.length = ys.length ∧ 0 < xs.length ∧ 0 < ys.length := by
  rcases hp : parse_truncate_log lines with _ | ⟨xs, ys⟩
  · exact Or.inl rfl
  · have h := parse_some_shape hp
    have hx : 0 < xs.length := List.length_pos.mpr h.2
    exact Or.inr ⟨xs, ys, rfl, h.1, hx, h.1 ▸ hx⟩

/-! ### C8 -/

/-- C8: the program exits 0 exactly when at least 3 argv entries are
given, extraction produces a DataSet and rendering succeeds; it exits 1
exactly when fewer than 3 argv entries are given, extraction finds no
data, or rendering (including the fewer-than-2-points rejection inside
`create_wilson_plot_ok`) fails. -/
theorem c8_exit_codes (argc : Nat) (lines : List String) (renderOk : Bool) :
    (mainExit argc lines renderOk = 0 ↔
      3 ≤ argc ∧ ∃ xs ys, parse_truncate_log lines = some (xs, ys) ∧
        create_wilson_plot_ok xs renderOk = true) ∧
    (mainExit argc lines renderOk = 1 ↔
      argc < 3 ∨ parse_truncate_log lines = none ∨
        ∃ xs ys, parse_truncate_log lines = some (xs, ys) ∧
          create_wilson_plot_ok xs renderOk = false) := by
  unfold mainExit
  by_cases ha : argc < 3
  · have ha' : ¬ 3 ≤ argc := by omega
    simp [ha, ha']
  · have ha3 : 3 ≤ argc := by omega
    rcases hp : parse_truncate_log lines with _ | ⟨xs, ys⟩
    · simp [ha, hp]
    · have hsh := parse_some_shape hp
      have hys : ys ≠ [] := by
        intro hnil
        apply hsh.2
        have hl := hsh.1
        rw [hnil] at hl
        simpa using hl
      rw [if_neg ha]
      dsimp only
      have hne : xs ≠ [] ∧ ys ≠ [] := ⟨hsh.2, hys⟩
      rw [if_pos hne]
      by_cases hc : create_wilson_plot_ok xs renderOk = true
      · rw [if_pos hc]
        constructor
        · simp only [hp, Option.some.injEq]
          constructor
          · intro _
            exact ⟨ha3, xs, ys, rfl, hc⟩
          · intro _; trivial
        · simp only [hp, Option.some.injEq]
          constructor
          · intro h01; cases h01
          · rintro (h | h | ⟨xs', ys', heq, hcf⟩)
            · omega
            · cases h
            · have hx : xs' = xs := by cases heq; rfl
              have : create_wilson_plot_ok xs renderOk = false := hx ▸ hcf
              rw [hc] at this; cases this
      · have hc' : create_wilson_plot_ok xs renderOk = false := by
          cases hcv : create_wilson_plot_ok xs renderOk
          · rfl
          · exact absurd hcv hc
        rw [if_neg hc]
        constructor
        · simp only [hp, Option.some.injEq]
          constructor
          · intro h10; cases h10
          · rintro ⟨_, xs', ys', heq, hct⟩
            have hx : xs' = xs := by cases heq; rfl
            rw [hx, hc'] at hct; cases hct
        · simp only [hp, Option.some.injEq]
          constructor
          · intro _
            exact Or.inr (Or.inr ⟨xs, ys, rfl, hc'⟩)
          · intro _; trivial

/-- Witness for C8 at a concrete too-few-arguments invocation. -/
theorem c8_witness : mainExit 2 ["1 2 3 4 5 6 7 8"] true = 1 :=
  (c8_exit_codes 2 ["1 2 3 4 5 6 7 8"] true).2.mpr (Or.inl (by omega))

/-! ### C4 -/

/-- The ordinary-least-squares slope for exactly two points with
distinct abscissae is the analytic slope between them. -/
lemma wilsonSlope_two (x1 y1 x2 y2 : ℚ) (h : x1 ≠ x2) :
    wilsonSlope [x1, x2] [y1, y2] = (y2 - y1) / (x2 - x1) := by
  unfold wilsonSlope
  simp only [List.length_cons, List.length_nil, List.zip_cons_cons, List.zip_nil_right,
    List.map_cons, List.map_nil, List.sum_cons, List.sum_nil]
  have hB : x2 - x1 ≠ 0 := sub_ne_zero.mpr (Ne.symm h)
  have hA : ((0 + 1 + 1 : ℕ) : ℚ) * (x1 * x1 + (x2 * x2 + 0)) -
      (x1 + (x2 + 0)) * (x1 + (x2 + 0)) ≠ 0 := by
    have he : ((0 + 1 + 1 : ℕ) : ℚ) * (x1 * x1 + (x2 * x2 + 0)) -
        (x1 + (x2 + 0)) * (x1 + (x2 + 0)) = (x2 - x1) ^ 2 := by
      push_cast; ring
    rw [he]
    exact pow_ne_zero 2 hB
  rw [div_eq_div_iff hA hB]
  push_cast
  ring

/-- C4 (amended): for a DataSet of exactly 2 points with distinct
x-values, the least-squares fit line passes through both points with
zero residual, the derived B-factor is −2 times the analytic slope
between the two points, and in general `wilson_b = −2 · m`. -/
theorem c4_two_point_fit (x1 y1 x2 y2 : ℚ) (h : x1 ≠ x2) :
    fitY [x1, x2] [y1, y2] = [y1, y2] ∧
    wilson_b [x1, x2] [y1, y2] = -2 * ((y2 - y1) / (x2 - x1)) ∧
    (∀ xs ys, wilson_b xs ys = -2 * wilsonSlope xs ys) := by
  have hB : x2 - x1 ≠ 0 := sub_ne_zero.mpr (Ne.symm h)
  have hs := wilsonSlope_two x1 y1 x2 y2 h
  have hi : wilsonIntercept [x1, x2] [y1, y2] =
      (y1 + y2 - (y2 - y1) / (x2 - x1) * (x1 + x2)) / 2 := by
    unfold wilsonIntercept
    rw [hs]
    simp only [List.sum_cons, List.sum_nil, List.length_cons, List.length_nil]
    push_cast
    ring_nf
  refine ⟨?_, ?_, ?_⟩
  · unfold fitY
    rw [hs, hi]
    simp only [List.map_cons, List.map_nil, List.cons.injEq, and_true]
    constructor
    · field_simp
      ring
    · field_simp
      ring
  · unfold wilson_b
    rw [hs]
  · intro xs ys
    rfl

/-- C4 counterexample: for the 2-point DataSet with coincident
x-values `[1, 1]` and y-values `[0, 1]`, the fitted values are
`[1/2, 1/2]`, so the fit line does not pass through the points (and the
analytic slope between them is undefined). -/
theorem c4_counterexample :
    fitY [1, 1] [0, 1] = [1/2, 1/2] ∧ fitY [1, 1] [0, 1] ≠ [0, 1] := by
  have hv : fitY [1, 1] [0, 1] = [1/2, 1/2] := by
    unfold fitY wilsonIntercept wilsonSlope
    norm_num
  refine ⟨hv, ?_⟩
  rw [hv]
  intro hcontra
  have : (1 / 2 : ℚ) = 0 := by
    have := List.head_eq_of_cons_eq hcontra
    exact this
  norm_num at this

/-- Witness for C4 at the points (0, 0) and (1, 1). -/
theorem c4_witness :
    fitY [0, 1] [0, 1] = [0, 1] ∧
    wilson_b [0, 1] [0, 1] = -2 * ((1 - 0) / (1 - 0)) :=
  ⟨(c4_two_point_fit 0 0 1 1 (by norm_num)).1,
   (c4_two_point_fit 0 0 1 1 (by norm_num)).2.1⟩

/-! ### C5 -/

/-- C5 (amended): the round trip
`resolution_to_inv_d_sq (inv_d_sq_to_resolution v)` recovers `v` exactly
for `1e-10 < v ≤ 1e20` (for larger `v` the `1e-10` floor clamps the
intermediate resolution, and the round trip returns `1e20` instead), and
both transforms are strictly decreasing above the epsilon floor. -/
theorem c5_roundtrip_and_monotone :
    (∀ v : ℝ, 1e-10 < v → v ≤ 1e20 →
      resolution_to_inv_d_sq (inv_d_sq_to_resolution v) = v) ∧
    (∀ a b : ℝ, 1e-10 < a → a < b →
      inv_d_sq_to_resolution b < inv_d_sq_to_resolution a) ∧
    (∀ a b : ℝ, 1e-10 < a → a < b →
      resolution_to_inv_d_sq b < resolution_to_inv_d_sq a) := by
  refine ⟨?_, ?_, ?_⟩
  · intro v h1 h2
    have hv : (0 : ℝ) < v := lt_trans (by norm_num) h1
    unfold inv_d_sq_to_resolution resolution_to_inv_d_sq
    rw [max_eq_left (le_of_lt h1)]
    have hs : (1e-10 : ℝ) ≤ Real.sqrt (1 / v) := by
      have hle : (1e-10 : ℝ) ^ 2 ≤ 1 / v := by
        have h20 : (1 : ℝ) / 1e20 ≤ 1 / v := one_div_le_one_div_of_le hv h2
        calc (1e-10 : ℝ) ^ 2 = 1 / 1e20 := by norm_num
          _ ≤ 1 / v := h20
      calc (1e-10 : ℝ) = Real.sqrt ((1e-10) ^ 2) := (Real.sqrt_sq (by norm_num)).symm
        _ ≤ Real.sqrt (1 / v) := Real.sqrt_le_sqrt hle
    rw [max_eq_left hs, Real.sq_sqrt (by positivity), one_div_one_div]
  · intro a b ha hab
    have ha0 : (0 : ℝ) < a := lt_trans (by norm_num) ha
    have hb0 : (0 : ℝ) < b := lt_trans ha0 hab
    unfold inv_d_sq_to_resolution
    rw [max_eq_left (le_of_lt ha), max_eq_left (le_of_lt (lt_trans ha hab))]
    exact Real.sqrt_lt_sqrt (le_of_lt (one_div_pos.mpr hb0))
      (one_div_lt_one_div_of_lt ha0 hab)
  · intro a b ha hab
    have ha0 : (0 : ℝ) < a := lt_trans (by norm_num) ha
    unfold resolution_to_inv_d_sq
    rw [max_eq_left (le_of_lt ha), max_eq_left (le_of_lt (lt_trans ha hab))]
    exact one_div_lt_one_div_of_lt (pow_pos ha0 2)
      (pow_lt_pow_left₀ hab (le_of_lt ha0) (by norm_num))

/-- C5 counterexample: at `v = 1e21` (above the epsilon floor), the
round trip returns `1e20`, not `v` — the intermediate
`sqrt(1/v) ≈ 3.2e-11` falls below the `1e-10` floor and is clamped. -/
theorem c5_counterexample :
    resolution_to_inv_d_sq (inv_d_sq_to_resolution 1e21) = 1e20 ∧
    (1e20 : ℝ) ≠ 1e21 := by
  constructor
  · unfold inv_d_sq_to_resolution resolution_to_inv_d_sq
    rw [max_eq_left (by norm_num : (1e-10 : ℝ) ≤ 1e21)]
    have hs : Real.sqrt (1 / 1e21) ≤ 1e-10 := by
      have h1 : Real.sqrt ((1 : ℝ) / 1e21) ≤ Real.sqrt (1 / 1e20) :=
        Real.sqrt_le_sqrt (by norm_num)
      have h2 : Real.sqrt ((1 : ℝ) / 1e20) = 1e-10 := by
        have he : ((1 : ℝ) / 1e20) = (1e-10 : ℝ) ^ 2 := by norm_num
        rw [he, Real.sqrt_sq (by norm_num)]
      rw [h2] at h1
      exact h1
    rw [max_eq_right hs]
    norm_num
  · norm_num

/-- Witness for C5 at `v = 1`, `a = 1`, `b = 2`. -/
theorem c5_witness :
    resolution_to_inv_d_sq (inv_d_sq_to_resolution 1) = 1 ∧
    inv_d_sq_to_resolution 2 < inv_d_sq_to_resolution 1 ∧
    resolution_to_inv_d_sq 2 < resolution_to_inv_d_sq 1 :=
  ⟨c5_roundtrip_and_monotone.1 1 (by norm_num) (by norm_num),
   c5_roundtrip_and_monotone.2.1 1 2 (by norm_num) (by norm_num),
   c5_roundtrip_and_monotone.2.2 1 2 (by norm_num) (by norm_num)⟩

/-! ### C1 -/

/-- Unfolding equation for `p1Loop` on an empty list. -/
lemma p1Loop_nil (i : Nat) (st : P1St) : p1Loop i [] st = st := rfl

/-- Unfolding equation for `p1Loop` on a cons. -/
lemma p1Loop_cons (i : Nat) (line : String) (rest : List String) (st : P1St) :
    p1Loop i (line :: rest) st =
      (if (p1Step i line st).brk then p1Step i line st
       else p1Loop (i + 1) rest (p1Step i line st)) := rfl

/-- A step on a marker-free line while no positive header is recorded
changes nothing. -/
lemma p1Step_nomarker_low (i : Nat) (line : String) (st : P1St)
    (hm : markerHit line = false) (hh : st.header ≤ 0) :
    p1Step i line st = st := by
  unfold p1Step
  simp only [hm, Bool.false_eq_true, if_false]
  rw [if_neg (show ¬(st.header > 0 ∧ (i : Int) > st.header) by rintro ⟨h1, _⟩; omega)]

/-- Scanning marker-free lines with a non-positive recorded header
leaves the state unchanged. -/
lemma p1Loop_nomarker (lines : List String) :
    ∀ (i : Nat) (st : P1St), (∀ l ∈ lines, markerHit l = false) → st.header ≤ 0 →
      p1Loop i lines st = st := by
  induction lines with
  | nil => intro i st _ _; rfl
  | cons line rest ih =>
    intro i st hm hh
    rw [p1Loop_cons, p1Step_nomarker_low i line st (hm line (by simp)) hh]
    split
    · rfl
    · exact ih (i + 1) st (fun l hl => hm l (by simp [hl])) hh

/-- With no marker in the report, Pass 1 returns nothing. -/
lemma pass1_nomarker (lines : List String)
    (hm : ∀ l ∈ lines, markerHit l = false) :
    pass1 lines = ([], []) := by
  unfold pass1
  rw [p1Loop_nomarker lines 0 p1Init hm (by decide)]
  rfl

/-- A step on a marker line records the line's index as the header and
does nothing else (the guard `i > data_header_line` fails on the marker
line itself). -/
lemma p1Step_mark (i : Nat) (line : String) (st : P1St)
    (hm : markerHit line = true) :
    p1Step i line st = { st with header := (i : Int) } := by
  unfold p1Step
  simp only [hm, if_true]
  rw [if_neg (show ¬((i : Int) > 0 ∧ (i : Int) > (i : Int)) by rintro ⟨_, h2⟩; omega)]

/-- A step on a marker-free line after a positive header passes the
guard: the header is kept and the index is recorded as considered. -/
lemma p1Step_post (i : Nat) (line : String) (st : P1St)
    (hm : markerHit line = false) (h0 : (0 : Int) < st.header)
    (hi : st.header < (i : Int)) :
    (p1Step i line st).header = st.header ∧
    (p1Step i line st).considered = st.considered ++ [i] := by
  unfold p1Step
  simp only [hm, Bool.false_eq_true, if_false]
  rw [if_pos ⟨h0, hi⟩]
  rcases p1Candidate_shape line { st with considered := st.considered ++ [i] } with
    ⟨_, hh, hc⟩
  exact ⟨hh, hc⟩

/-- Shifting a range of candidate indices by one position. -/
lemma range_shift (i n : Nat) :
    (List.range (n + 1)).map (i + ·) = i :: (List.range n).map ((i + 1) + ·) := by
  rw [List.range_succ_eq_map]
  simp only [List.map_cons, List.map_map, Nat.add_zero]
  refine congrArg _ ?_
  apply List.map_congr_left
  intro a _
  simp only [Function.comp_apply]
  omega

/-- After the marker, scanning marker-free lines that never break
records exactly the indices of the scanned lines as candidates. -/
lemma p1Loop_post (lines : List String) :
    ∀ (i : Nat) (st : P1St),
      (∀ l ∈ lines, markerHit l = false) →
      (0 : Int) < st.header → st.header < (i : Int) →
      (p1Loop i lines st).brk = false →
      (p1Loop i lines st).considered =
        st.considered ++ (List.range lines.length).map (i + ·) ∧
      (p1Loop i lines st).header = st.header := by
  induction lines with
  | nil => intro i st _ _ _ _; simp [p1Loop_nil]
  | cons line rest ih =>
    intro i st hm h0 hi hfin
    rw [p1Loop_cons] at hfin ⊢
    by_cases hb : (p1Step i line st).brk
    · rw [if_pos hb] at hfin
      rw [hfin] at hb
      cases hb
    · rw [if_neg hb] at hfin ⊢
      have hpost := p1Step_post i line st (hm line (by simp)) h0 hi
      have hd : st.header < ((i + 1 : Nat) : Int) := by push_cast; omega
      have ihres := ih (i + 1) (p1Step i line st)
        (fun l hl => hm l (by simp [hl]))
        (by rw [hpost.1]; exact h0)
        (by rw [hpost.1]; exact hd)
        hfin
      constructor
      · rw [ihres.1, hpost.2, List.length_cons, range_shift]
        simp [List.append_assoc]
      · rw [ihres.2, hpost.1]

/-- Composing the Pass 1 loop over an append of line blocks. -/
lemma p1Loop_append (as : List String) :
    ∀ (bs : List String) (i : Nat) (st : P1St), st.brk = false →
      p1Loop i (as ++ bs) st =
        (if (p1Loop i as st).brk then p1Loop i as st
         else p1Loop (i + as.length) bs (p1Loop i as st)) := by
  induction as with
  | nil =>
    intro bs i st hb
    simp only [List.nil_append, List.length_nil, Nat.add_zero, p1Loop_nil]
    rw [if_neg (by simp [hb])]
  | cons a as ih =>
    intro bs i st hb
    simp only [List.cons_append]
    rw [p1Loop_cons, p1Loop_cons]
    by_cases hb2 : (p1Step i a st).brk
    · rw [if_pos hb2, if_pos hb2, if_pos hb2]
    · rw [if_neg hb2, if_neg hb2]
      have hlen : i + (a :: as).length = (i + 1) + as.length := by
        simp [List.length_cons]
        omega
      rw [hlen]
      exact ih bs (i + 1) (p1Step i a st) (by simpa using hb2)

/-- Decomposition of a report at its first marker line. -/
lemma firstMarkerIdx_split (lines : List String) :
    ∀ (m : Nat), firstMarkerIdx lines = some m →
      ∃ pre mk post, lines = pre ++ mk :: post ∧ pre.length = m ∧
        markerHit mk = true ∧ ∀ l ∈ pre, markerHit l = false := by
  induction lines with
  | nil => intro m h; cases h
  | cons line rest ih =>
    intro m h
    unfold firstMarkerIdx at h
    by_cases hm : markerHit line
    · rw [if_pos hm] at h
      injection h with h'
      exact ⟨[], line, rest, rfl, by simp [← h'], hm, by simp⟩
    · rw [if_neg hm] at h
      simp only [Bool.not_eq_true] at hm
      obtain ⟨m', hm', hmm⟩ := Option.map_eq_some'.mp h
      obtain ⟨pre, mk, post, e1, e2, e3, e4⟩ := ih m' hm'
      refine ⟨line :: pre, mk, post, by simp [e1], by simp [e2, hmm], e3, ?_⟩
      intro l hl
      rcases List.mem_cons.mp hl with rfl | hl
      · exact hm
      · exact e4 l hl

/-- C1 (amended): when the first marker line has index `m ≥ 1`, no
later line contains a marker, and the scan does not break early, Pass 1
treats as data-row candidates exactly the lines strictly after the
marker line.  When the first marker is on the very first line (index 0)
and no later line contains one, the guard `data_header_line > 0` never
holds and Pass 1 considers no candidates at all (see the
counterexample). -/
theorem c1_candidates_after_marker (lines : List String) (m : Nat)
    (h1 : firstMarkerIdx lines = some m) (h2 : 1 ≤ m)
    (h3 : ∀ l ∈ lines.drop (m + 1), markerHit l = false)
    (h4 : p1Broke lines = false) :
    p1FinalHeader lines = (m : Int) ∧
    p1Considered lines = (List.range (lines.length - (m + 1))).map ((m + 1) + ·) := by
  obtain ⟨pre, mk, post, e1, e2, e3, e4⟩ := firstMarkerIdx_split lines m h1
  subst e1
  have hdp : (pre ++ mk :: post).drop (m + 1) = post := by
    have hsp : pre ++ mk :: post = (pre ++ [mk]) ++ post := by simp
    have hlen : (pre ++ [mk]).length = m + 1 := by simp [e2]
    rw [hsp, ← hlen]
    exact List.drop_left _ _
  have hmp : ∀ l ∈ post, markerHit l = false := by
    intro l hl
    exact h3 l (by rw [hdp]; exact hl)
  have hEq : p1Loop 0 (pre ++ mk :: post) p1Init =
      p1Loop (m + 1) post { p1Init with header := (m : Int) } := by
    rw [p1Loop_append pre (mk :: post) 0 p1Init rfl,
      p1Loop_nomarker pre 0 p1Init e4 (by decide)]
    rw [if_neg (by simp [p1Init])]
    have h0p : 0 + pre.length = m := by omega
    rw [h0p, p1Loop_cons, p1Step_mark m mk p1Init e3]
    rw [if_neg (by simp [p1Init])]
  unfold p1Broke at h4
  unfold p1Considered p1FinalHeader
  rw [hEq] at h4 ⊢
  have h0 : (0 : Int) < ({ p1Init with header := (m : Int) } : P1St).header := by
    show (0 : Int) < (m : Int)
    omega
  have hi : ({ p1Init with header := (m : Int) } : P1St).header < ((m + 1 : Nat) : Int) := by
    show (m : Int) < ((m + 1 : Nat) : Int)
    omega
  have hres := p1Loop_post post (m + 1) { p1Init with header := (m : Int) } hmp h0 hi h4
  refine ⟨hres.2, ?_⟩
  rw [hres.1]
  have hlen2 : (pre ++ mk :: post).length - (m + 1) = post.length := by
    simp only [List.length_append, List.length_cons, e2]
    omega
  rw [hlen2]
  show ([] : List Nat) ++ _ = _
  rw [List.nil_append]

/-- C1 counterexample: with the marker on the very first line (index 0)
and valid data after it, the claim predicts candidates `[1, 2]`, but the
strict guard `data_header_line > 0` rejects a zero header, so Pass 1
considers no line and extracts nothing. -/
theorem c1_counterexample :
    firstMarkerIdx ["Range N_obs", "$", "1 2 3 4 5 6 7 8"] = some 0 ∧
    p1Considered ["Range N_obs", "$", "1 2 3 4 5 6 7 8"] = [] ∧
    p1Considered ["Range N_obs", "$", "1 2 3 4 5 6 7 8"] ≠ [1, 2] ∧
    pass1 ["Range N_obs", "$", "1 2 3 4 5 6 7 8"] = ([], []) := by
  refine ⟨by decide, by decide, by decide, by decide⟩

/-- Witness for C1 with the first marker on line 1. -/
theorem c1_witness :
    firstMarkerIdx ["x", "Range N_obs", "$", "1 2 3 4 5 6 7 8"] = some 1 ∧
    p1Broke ["x", "Range N_obs", "$", "1 2 3 4 5 6 7 8"] = false ∧
    p1FinalHeader ["x", "Range N_obs", "$", "1 2 3 4 5 6 7 8"] = (1 : Int) ∧
    p1Considered ["x", "Range N_obs", "$", "1 2 3 4 5 6 7 8"] =
      (List.range (["x", "Range N_obs", "$", "1 2 3 4 5 6 7 8"].length - (1 + 1))).map
        ((1 + 1) + ·) :=
  ⟨by decide, by decide,
   (c1_candidates_after_marker ["x", "Range N_obs", "$", "1 2 3 4 5 6 7 8"] 1
     (by decide) (by decide) (by decide) (by decide)).1,
   (c1_candidates_after_marker ["x", "Range N_obs", "$", "1 2 3 4 5 6 7 8"] 1
     (by decide) (by decide) (by decide) (by decide)).2⟩

/-! ### C2 -/

/-- Unfolding equation for `p2Loop` on a cons. -/
lemma p2Loop_cons (line : String) (rest : List String) (st : P2St) :
    p2Loop (line :: rest) st =
      (if 8 ≤ (pySplit line).length ∧ pyTokIsdigit ((pySplit line).getD 0 "") then
        match pyFloat? ((pySplit line).getD 4 ""), pyFloat? ((pySplit line).getD 7 "") with
        | some a, some b =>
          if a.gtZero then p2Loop rest ⟨true, st.xs ++ [a], st.ys ++ [b]⟩
          else p2Loop rest st
        | _, _ => p2Loop rest st
      else if st.inSec ∧ (pySplit line).length < 8 then st
      else p2Loop rest st) := rfl

/-- When every remaining line has at least 8 tokens, the Pass 2 scan
never terminates early and accepts exactly the qualifying lines. -/
lemma p2Loop_allLong (lines : List String) :
    ∀ st : P2St, (∀ l ∈ lines, 8 ≤ (pySplit l).length) →
      (p2Loop lines st).xs.length = st.xs.length + lines.countP p2Qual := by
  induction lines with
  | nil => intro st _; simp [p2Loop, List.countP_nil]
  | cons line rest ih =>
    intro st h
    have h8 : 8 ≤ (pySplit line).length := h line (by simp)
    have hrest : ∀ l ∈ rest, 8 ≤ (pySplit l).length := fun l hl => h l (by simp [hl])
    rw [p2Loop_cons]
    by_cases hc1 : 8 ≤ (pySplit line).length ∧ pyTokIsdigit ((pySplit line).getD 0 "") = true
    · rw [if_pos hc1]
      rcases h4 : pyFloat? ((pySplit line).getD 4 "") with _ | a <;>
        rcases h7 : pyFloat? ((pySplit line).getD 7 "") with _ | b
      · have hq : p2Qual line = false := by
          unfold p2Qual
          rw [if_pos hc1, h4, h7]
        rw [List.countP_cons, hq]
        dsimp only
        rw [ih st hrest]
        simp
      · have hq : p2Qual line = false := by
          unfold p2Qual
          rw [if_pos hc1, h4, h7]
        rw [List.countP_cons, hq]
        dsimp only
        rw [ih st hrest]
        simp
      · have hq : p2Qual line = false := by
          unfold p2Qual
          rw [if_pos hc1, h4, h7]
        rw [List.countP_cons, hq]
        dsimp only
        rw [ih st hrest]
        simp
      · dsimp only
        by_cases hpos : a.gtZero = true
        · have hq : p2Qual line = true := by
            unfold p2Qual
            rw [if_pos hc1, h4, h7]
            exact hpos
          rw [if_pos hpos, List.countP_cons, hq]
          rw [ih ⟨true, st.xs ++ [a], st.ys ++ [b]⟩ hrest]
          simp
          omega
        · have hpos' : a.gtZero = false := by
            cases hv : a.gtZero
            · rfl
            · exact absurd hv hpos
          have hq : p2Qual line = false := by
            unfold p2Qual
            rw [if_pos hc1, h4, h7]
            exact hpos'
          rw [if_neg hpos, List.countP_cons, hq]
          rw [ih st hrest]
          simp
    · rw [if_neg hc1]
      have hq : p2Qual line = false := by
        unfold p2Qual
        rw [if_neg hc1]
      rw [if_neg (by rintro ⟨_, hlt⟩; omega)]
      rw [List.countP_cons, hq]
      rw [ih st hrest]
      simp

/-- Pass 2 starting outside the data section accepts exactly the
qualifying lines, provided every line that follows a qualifying line has
at least 8 tokens (so the early termination never fires). -/
lemma p2Loop_count (lines : List String) :
    ∀ st : P2St, st.inSec = false →
      List.Pairwise (fun a b => p2Qual a = true → 8 ≤ (pySplit b).length) lines →
      (p2Loop lines st).xs.length = st.xs.length + lines.countP p2Qual := by
  induction lines with
  | nil => intro st _ _; simp [p2Loop, List.countP_nil]
  | cons line rest ih =>
    intro st hsec hp
    obtain ⟨hrel, hp'⟩ := List.pairwise_cons.mp hp
    rw [p2Loop_cons]
    by_cases hc1 : 8 ≤ (pySplit line).length ∧ pyTokIsdigit ((pySplit line).getD 0 "") = true
    · rw [if_pos hc1]
      rcases h4 : pyFloat? ((pySplit line).getD 4 "") with _ | a <;>
        rcases h7 : pyFloat? ((pySplit line).getD 7 "") with _ | b
      · have hq : p2Qual line = false := by
          unfold p2Qual
          rw [if_pos hc1, h4, h7]
        rw [List.countP_cons, hq]
        dsimp only
        rw [ih st hsec hp']
        simp
      · have hq : p2Qual line = false := by
          unfold p2Qual
          rw [if_pos hc1, h4, h7]
        rw [List.countP_cons, hq]
        dsimp only
        rw [ih st hsec hp']
        simp
      · have hq : p2Qual line = false := by
          unfold p2Qual
          rw [if_pos hc1, h4, h7]
        rw [List.countP_cons, hq]
        dsimp only
        rw [ih st hsec hp']
        simp
      · dsimp only
        by_cases hpos : a.gtZero = true
        · have hq : p2Qual line = true := by
            unfold p2Qual
            rw [if_pos hc1, h4, h7]
            exact hpos
          rw [if_pos hpos, List.countP_cons, hq]
          have hlong : ∀ l ∈ rest, 8 ≤ (pySplit l).length := fun l hl => hrel l hl hq
          rw [p2Loop_allLong rest ⟨true, st.xs ++ [a], st.ys ++ [b]⟩ hlong]
          simp
          omega
        · have hpos' : a.gtZero = false := by
            cases hv : a.gtZero
            · rfl
            · exact absurd hv hpos
          have hq : p2Qual line = false := by
            unfold p2Qual
            rw [if_pos hc1, h4, h7]
            exact hpos'
          rw [if_neg hpos, List.countP_cons, hq]
          rw [ih st hsec hp']
          simp
    · rw [if_neg hc1]
      have hq : p2Qual line = false := by
        unfold p2Qual
        rw [if_neg hc1]
      rw [if_neg (by rintro ⟨hs, _⟩; rw [hsec] at hs; cases hs)]
      rw [List.countP_cons, hq]
      rw [ih st hsec hp']
      simp

/-- C2 (amended): for a report without markers (so Pass 1 yields zero
points), the Pass 2 fallback DataSet length equals the number of lines
satisfying its acceptance criteria, provided every line after a
qualifying line has at least 8 tokens; otherwise the first sub-8-token
line after the first accepted row ends the scan, and only qualifying
lines before that point are counted (see the counterexample). -/
theorem c2_fallback_count (lines : List String)
    (hm : ∀ l ∈ lines, markerHit l = false)
    (hp : List.Pairwise (fun a b => p2Qual a = true → 8 ≤ (pySplit b).length) lines) :
    pass1 lines = ([], []) ∧
    (pass2 lines).1.length = lines.countP p2Qual := by
  refine ⟨pass1_nomarker lines hm, ?_⟩
  unfold pass2
  rw [p2Loop_count lines ⟨false, [], []⟩ rfl hp]
  simp

/-- C2 counterexample: a markerless report with two qualifying rows
separated by a short line — Pass 1 yields zero points and Pass 2
terminates at the short line, returning 1 point although 2 lines satisfy
its acceptance criteria. -/
theorem c2_counterexample :
    (∀ l ∈ ["1 2 3 4 5 6 7 8", "9", "1 2 3 4 5 6 7 8"], markerHit l = false) ∧
    pass1 ["1 2 3 4 5 6 7 8", "9", "1 2 3 4 5 6 7 8"] = ([], []) ∧
    (pass2 ["1 2 3 4 5 6 7 8", "9", "1 2 3 4 5 6 7 8"]).1.length = 1 ∧
    List.countP p2Qual ["1 2 3 4 5 6 7 8", "9", "1 2 3 4 5 6 7 8"] = 2 :=
  ⟨by decide, by decide, by decide, by decide⟩

/-- Witness for C2 on a one-row markerless report. -/
theorem c2_witness :
    pass1 ["1 2 3 4 5 6 7 8"] = ([], []) ∧
    (pass2 ["1 2 3 4 5 6 7 8"]).1.length =
      List.countP p2Qual ["1 2 3 4 5 6 7 8"] :=
  c2_fallback_count ["1 2 3 4 5 6 7 8"] (by decide) (by simp)

/-! ### C7 -/

/-- A point accepted by the Pass 1 row reader has its x value parsed
from token index 4 of the row. -/
lemma p1ReadRow_ok_parse (line : String) (a b : PyVal)
    (h : p1ReadRow line = RowRead.ok a b) :
    pyFloat? ((pySplit line).getD 4 "") = some a := by
  unfold p1ReadRow at h
  by_cases h8 : 8 ≤ (pySplit line).length
  · have h4 : 4 < (pySplit line).length := by omega
    have h7 : 7 < (pySplit line).length := by omega
    rw [if_pos h8, if_pos h4, if_pos h7] at h
    dsimp only at h
    rcases hp4 : pyFloat? ((pySplit line).getD 4 "") with _ | a' <;>
      rcases hp7 : pyFloat? ((pySplit line).getD 7 "") with _ | b'
    · rw [hp4, hp7] at h; cases h
    · rw [hp4, hp7] at h; cases h
    · rw [hp4, hp7] at h; cases h
    · rw [hp4, hp7] at h
      injection h with ha _
      rw [ha]
  · rw [if_neg h8] at h
    cases h

/-- Every x accumulated by the Pass 1 loop beyond the initial state was
parsed from token index 4 of some scanned line. -/
lemma p1Loop_mem (lines : List String) :
    ∀ (i : Nat) (st : P1St) (x : PyVal), x ∈ (p1Loop i lines st).xs →
      x ∈ st.xs ∨ ∃ l ∈ lines, pyFloat? ((pySplit l).getD 4 "") = some x := by
  induction lines with
  | nil => intro i st x hx; exact Or.inl hx
  | cons line rest ih =>
    intro i st x hx
    rw [p1Loop_cons] at hx
    have hstep : x ∈ (p1Step i line st).xs →
        x ∈ st.xs ∨ ∃ l ∈ line :: rest, pyFloat? ((pySplit l).getD 4 "") = some x := by
      intro hx'
      rcases p1Step_shape i line st with ⟨he, _⟩ | ⟨a, b, hok, he, _⟩
      · rw [he] at hx'
        exact Or.inl hx'
      · rw [he] at hx'
        rcases List.mem_append.mp hx' with hx1 | hx1
        · exact Or.inl hx1
        · have hxa : x = a := by simpa using hx1
          subst hxa
          exact Or.inr ⟨line, by simp, p1ReadRow_ok_parse line x b hok⟩
    by_cases hb : (p1Step i line st).brk
    · rw [if_pos hb] at hx
      exact hstep hx
    · rw [if_neg hb] at hx
      rcases ih (i + 1) (p1Step i line st) x hx with hx' | ⟨l, hl, hpl⟩
      · exact hstep hx'
      · exact Or.inr ⟨l, by simp [hl], hpl⟩

/-- Every x accumulated by the Pass 2 loop beyond the initial state was
parsed from token index 4 of some scanned line. -/
lemma p2Loop_mem (lines : List String) :
    ∀ (st : P2St) (x : PyVal), x ∈ (p2Loop lines st).xs →
      x ∈ st.xs ∨ ∃ l ∈ lines, pyFloat? ((pySplit l).getD 4 "") = some x := by
  induction lines with
  | nil => intro st x hx; exact Or.inl hx
  | cons line rest ih =>
    intro st x hx
    rw [p2Loop_cons] at hx
    by_cases hc1 : 8 ≤ (pySplit line).length ∧ pyTokIsdigit ((pySplit line).getD 0 "") = true
    · rw [if_pos hc1] at hx
      rcases h4 : pyFloat? ((pySplit line).getD 4 "") with _ | a <;>
        rcases h7 : pyFloat? ((pySplit line).getD 7 "") with _ | b <;>
        rw [h4, h7] at hx <;> dsimp only at hx
      · rcases ih st x hx with hx' | ⟨l, hl, hpl⟩
        · exact Or.inl hx'
        · exact Or.inr ⟨l, by simp [hl], hpl⟩
      · rcases ih st x hx with hx' | ⟨l, hl, hpl⟩
        · exact Or.inl hx'
        · exact Or.inr ⟨l, by simp [hl], hpl⟩
      · rcases ih st x hx with hx' | ⟨l, hl, hpl⟩
        · exact Or.inl hx'
        · exact Or.inr ⟨l, by simp [hl], hpl⟩
      · by_cases hpos : a.gtZero = true
        · rw [if_pos hpos] at hx
          rcases ih ⟨true, st.xs ++ [a], st.ys ++ [b]⟩ x hx with hx' | ⟨l, hl, hpl⟩
          · rcases List.mem_append.mp hx' with hx1 | hx1
            · exact Or.inl hx1
            · have hxa : x = a := by simpa using hx1
              subst hxa
              exact Or.inr ⟨line, by simp, h4⟩
          · exact Or.inr ⟨l, by simp [hl], hpl⟩
        · rw [if_neg hpos] at hx
          rcases ih st x hx with hx' | ⟨l, hl, hpl⟩
          · exact Or.inl hx'
          · exact Or.inr ⟨l, by simp [hl], hpl⟩
    · rw [if_neg hc1] at hx
      by_cases hsec : st.inSec ∧ (pySplit line).length < 8
      · rw [if_pos hsec] at hx
        exact Or.inl hx
      · rw [if_neg hsec] at hx
        rcases ih st x hx with hx' | ⟨l, hl, hpl⟩
        · exact Or.inl hx'
        · exact Or.inr ⟨l, by simp [hl], hpl⟩

/-- C7 (amended): every x value in a returned DataSet is the result of
successfully float-parsing token index 4 of some report line; the parse
may yield an infinity or NaN — finiteness is not validated at
extraction time (and Pass 2's `x > 0` filter still admits +inf, see the
counterexample). -/
theorem c7_x_values_parsed (lines : List String) (xs ys : List PyVal)
    (h : parse_truncate_log lines = some (xs, ys)) :
    ∀ x ∈ xs, ∃ l ∈ lines, pyFloat? ((pySplit l).getD 4 "") = some x := by
  unfold parse_truncate_log at h
  dsimp only at h
  intro x hx
  by_cases h1 : (pass1 lines).1.isEmpty
  · rw [if_pos h1] at h
    by_cases h2 : (pass2 lines).1.isEmpty
    · rw [if_pos h2] at h
      cases h
    · rw [if_neg h2] at h
      injection h with h'
      have hx2 : x ∈ (pass2 lines).1 := by
        rw [h']
        exact hx
      unfold pass2 at hx2
      rcases p2Loop_mem lines ⟨false, [], []⟩ x hx2 with hc | hc
      · cases hc
      · exact hc
  · rw [if_neg h1] at h
    rw [if_neg (by simpa using h1)] at h
    injection h with h'
    have hx2 : x ∈ (pass1 lines).1 := by
      rw [h']
      exact hx
    unfold pass1 at hx2
    rcases p1Loop_mem lines 0 p1Init x hx2 with hc | hc
    · cases hc
    · exact hc

/-- C7 counterexample: a report whose Pass 1 data row carries `inf` in
token 4 — the extractor returns a DataSet whose x value is +infinity,
not a finite float. -/
theorem c7_counterexample :
    parse_truncate_log ["x", "Range N_obs", "$", "1 2 3 4 inf 6 7 8"] =
      some ([PyVal.inf], [PyVal.finite 8 0]) ∧
    PyVal.inf.isFinite = false :=
  ⟨by decide, by decide⟩

/-- Witness for C7 on a one-row Pass 2 report. -/
theorem c7_witness :
    parse_truncate_log ["5 2 3 4 7 6 7 8"] =
      some ([PyVal.finite 7 0], [PyVal.finite 8 0]) ∧
    ∃ l ∈ ["5 2 3 4 7 6 7 8"], pyFloat? ((pySplit l).getD 4 "") =
      some (PyVal.finite 7 0) :=
  ⟨by decide,
   c7_x_values_parsed ["5 2 3 4 7 6 7 8"] [PyVal.finite 7 0] [PyVal.finite 8 0]
     (by decide) (PyVal.finite 7 0) (by decide)⟩
